import Mathlib

/-!
Formal model of the Labdetector edge-to-center event pipeline.

Shallow embedding of:
- pcside/communication/multi_ws_manager.py  (MultiPiManager, _node_handler)
- pcside/core/expert_manager.py             (ExpertManager.route_and_analyze)
- pcside/experts/general_safety_expert.py   (violation TTS state machine)
- piside/edge_vision/yolo_detector.py       (SemanticEdgeEngine.process_frame)
- piside/edge_vision/motion_detector.py     (EdgeMotionDetector.process_frame)

Python floats are modelled as rationals, dicts keyed by strings as total or
optional functions over String, and raised exceptions as explicit error
values.  Image buffers and decoding are abstracted behind type parameters,
since the spec treats image encoding/decoding as an external collaborator.
-/

namespace LabDetector

/-! ## Node status (multi_ws_manager.py)

The per-node status strings written by MultiPiManager:
"connecting" (ctor default and top of each while iteration, lines 21/31),
"online" (after a successful websocket handshake, line 33),
"offline" (in the except handler after any failure, line 104). -/

inductive NodeStatus where
  | connecting
  | online
  | offline
deriving DecidableEq, Repr

/-- The status-write transitions realizable by one iteration of the
_node_handler while-loop: line 31 sets connecting after the except branch,
line 33 sets online from connecting, line 104 sets offline either when the
connect call itself fails (still connecting) or when the stream loops fail
(online). -/
inductive StatusStep : NodeStatus → NodeStatus → Prop where
  | handshake : StatusStep .connecting .online
  | connectFail : StatusStep .connecting .offline
  | streamFail : StatusStep .online .offline
  | retry : StatusStep .offline .connecting

/-- A sequence of observed statuses in which each consecutive pair is one
of the writes performed by the handler loop. -/
def ValidStatusTrace (tr : List NodeStatus) : Prop :=
  tr.Chain' StatusStep

/-! ## Bandwidth allocation (multi_ws_manager.py lines 23-24) -/

/-- MultiPiManager.__init__:
target_fps = max(1.0, 30.0 / num_nodes) if num_nodes > 0 else 30.0 -/
def target_fps (numNodes : ℕ) : ℚ :=
  if 0 < numNodes then max 1 (30 / (numNodes : ℚ)) else 30

/-- The slice of MultiPiManager state relevant to rate allocation:
the configured node ids (keys of pi_dict) and the target fps computed
once at construction. -/
structure MultiPiManager where
  piIds : List String
  targetFps : ℚ
deriving DecidableEq, Repr

def mkManager (piIds : List String) : MultiPiManager :=
  { piIds := piIds, targetFps := target_fps piIds.length }

/-- Control commands sent center→edge over the websocket, each serialized
as a CMD:VERB:payload text message by _node_handler. -/
inductive Command where
  | setFps (v : ℚ)
  | syncConfig (json : String)
  | syncPolicy (json : String)
  | tts (text : String)
deriving DecidableEq, Repr

/-- The command sequence _node_handler sends right after a successful
handshake (lines 35-41): SET_FPS with the constructed target fps, then
SYNC_CONFIG, then SYNC_POLICY. -/
def onConnectCommands (m : MultiPiManager) (wakeJson policyJson : String) : List Command :=
  [Command.setFps m.targetFps, Command.syncConfig wakeJson, Command.syncPolicy policyJson]

/-! ## Receive loop of one node channel (multi_ws_manager.py lines 44-93) -/

/-- One websocket message: the protocol multiplexes text commands and
binary preview frames on one connection. -/
inductive WsMsg (B : Type) where
  | text (s : String)
  | binary (b : B)

/-- The per-node state the recv_stream_task can observe or mutate:
frame_buffers[pi_id] and node_status[pi_id]. -/
structure RecvState (F : Type) where
  frameBuffer : Option F
  status : NodeStatus

/-- Python str.startswith: the needle's characters are an initial segment
of the string's characters. -/
def pyStartsWith (s pre : String) : Bool :=
  pre.data.isPrefixOf s.data

/-- One iteration of recv_stream_task for one incoming message.
Text dispatch follows the if/elif chain on verb string heads
(lines 49, 53): a recognized event message runs the guarded event block,
whose websocket sends are abstracted as handleEvent (its internal
try/except catches all exceptions, line 85, so it never aborts the loop);
any other text message reaches no branch and the loop continues unchanged.
A binary message is decoded and replaces the frame buffer only when the
decode yields a frame (lines 90-93: frame is not None).
Returns the new state and the messages sent back on the websocket. -/
def recvStep {B F : Type} (decode : B → Option F) (handleEvent : String → List String)
    (st : RecvState F) (msg : WsMsg B) : RecvState F × List String :=
  match msg with
  | .text s =>
      if pyStartsWith s "PI_VOICE_COMMAND:" then
        (st, [])
      else if pyStartsWith s "PI_EXPERT_EVENT:" || pyStartsWith s "PI_YOLO_EVENT:" then
        (st, handleEvent s)
      else
        (st, [])
  | .binary b =>
      match decode b with
      | some f => ({ st with frameBuffer := some f }, [])
      | none => (st, [])

/-- The recv loop: process messages in arrival order, accumulating the
replies sent on the websocket. -/
def runRecv {B F : Type} (decode : B → Option F) (handleEvent : String → List String)
    (st : RecvState F) : List (WsMsg B) → RecvState F × List String
  | [] => (st, [])
  | m :: rest =>
      let step := recvStep decode handleEvent st m
      let next := runRecv decode handleEvent step.1 rest
      (next.1, step.2 ++ next.2)

/-- The successfully decoded frames among a message sequence, in order:
binary payloads on which decode succeeds. -/
def decodedFrames {B F : Type} (decode : B → Option F) : List (WsMsg B) → List F
  | [] => []
  | .text _ :: rest => decodedFrames decode rest
  | .binary b :: rest =>
      match decode b with
      | some f => f :: decodedFrames decode rest
      | none => decodedFrames decode rest

/-! ## Expert dispatch (expert_manager.py lines 70-85) -/

/-- One registered expert: its routing predicate match_event and its
analyze function; a Lean error value models an analyze call that raises
(caught and logged by route_and_analyze, line 79). -/
structure Expert (F C : Type) where
  name : String
  matchEvent : String → Bool
  analyze : F → C → Except String String

/-- ExpertManager.route_and_analyze: iterate experts in registration
order; for each whose match_event accepts the event name, run analyze
inside the fault boundary; keep the truthy (non-empty) results; join
them with a single space, returning "" when nothing was collected. -/
def routeAndAnalyze {F C : Type} (experts : List (Expert F C))
    (eventName : String) (frame : F) (ctx : C) : String :=
  let results := experts.foldl (fun acc e =>
    if e.matchEvent eventName then
      match e.analyze frame ctx with
      | .ok res => if res = "" then acc else acc ++ [res]
      | .error _ => acc
    else acc) []
  if results = [] then "" else String.intercalate " " results

/-- The guard the node handler applies before sending an advisory back
down the channel (multi_ws_manager.py line 81: if tts_text:). -/
def sendsAdvisory (ttsText : String) : Bool :=
  ttsText ≠ ""

/-- The guarded event block of recv_stream_task (lines 54-86): parse the
text message into an event name and an image (parse failure models any
exception raised while splitting or decoding, caught at line 85); skip
while the voice agent is active; otherwise dispatch to the experts and
send CMD:TTS back only when the aggregated advisory is non-empty. -/
def handleExpertEvent {F C : Type} (parse : String → Option (String × F))
    (experts : List (Expert F C)) (ctxOf : String → C) (voiceActive : Bool)
    (s : String) : List String :=
  match parse s with
  | none => []
  | some (eventStr, frame) =>
      if voiceActive then []
      else
        let tts := routeAndAnalyze experts eventStr frame (ctxOf eventStr)
        if sendsAdvisory tts then ["CMD:TTS:" ++ tts] else []

/-! ## Violation tracker (general_safety_expert.py lines 89-109) -/

/-- One entry of GeneralSafetyExpert.violation_states, keyed by event
description. -/
structure ViolationState where
  firstSeen : ℚ
  lastAlert : ℚ
  count : ℕ
deriving DecidableEq, Repr

/-- First-alert wording (line 96). -/
def firstAlertText (desc : String) : String :=
  "警告：已检测到" ++ desc ++ "，请立即规范操作！"

/-- Escalated wording (line 104). -/
def escalatedAlertText (desc : String) : String :=
  "严重警告：您仍在" ++ desc ++ "，此行为高度危险，请立即停止！"

/-- The TTS state machine of GeneralSafetyExpert.analyze (lines 90-108):
look up the key with default {first_seen: now, last_alert: 0, count: 0};
count == 0 emits the first alert, sets last_alert = now, count += 1;
otherwise now - last_alert > 30.0 emits the escalated alert, sets
last_alert = now, count += 1; otherwise nothing is emitted and the state
is stored back unchanged.  Returns the emitted text and the updated map. -/
def violationStep (states : String → Option ViolationState) (desc : String)
    (now : ℚ) : String × (String → Option ViolationState) :=
  let state := (states desc).getD ⟨now, 0, 0⟩
  if state.count = 0 then
    (firstAlertText desc,
     Function.update states desc (some ⟨state.firstSeen, now, state.count + 1⟩))
  else if 30 < now - state.lastAlert then
    (escalatedAlertText desc,
     Function.update states desc (some ⟨state.firstSeen, now, state.count + 1⟩))
  else
    ("", Function.update states desc (some state))

/-! ## Semantic edge engine (piside/edge_vision/yolo_detector.py) -/

/-- A detector bounding box in xyxy form (box.xyxy cast to int, line 31). -/
structure Box where
  x1 : ℤ
  y1 : ℤ
  x2 : ℤ
  y2 : ℤ
deriving DecidableEq, Repr

/-- One YOLO detection: class label plus box.  The detection list is the
per-frame output of the single shared model pass (lines 20-31), from which
both detected_objects and boxes_dict are built. -/
structure Detection where
  cls : String
  box : Box
deriving DecidableEq, Repr

/-- detected_set = set(detected_objects) (line 33). -/
def detectedSetOf (dets : List Detection) : Finset String :=
  (dets.map Detection.cls).toFinset

/-- boxes_dict[c]: the boxes recorded for class c, in detection order
(lines 29-31). -/
def boxesOf (dets : List Detection) (c : String) : List Box :=
  (dets.filter (fun d => d.cls = c)).map Detection.box

/-- detected_str = ",".join(detected_set) (line 34).  Python set iteration
order is unspecified; the model joins the class labels deduplicated in
first-detection order, one representative of the possible strings. -/
def detectedStr (dets : List Detection) : String :=
  String.intercalate "," (dets.map Detection.cls).dedup

/-- One entry of the policy list distributed to the edge, with the dict
defaults of lines 41-45 already applied: event_name, trigger_classes,
condition (default "any"), action (default "full_frame"),
cooldown (default 5.0). -/
structure EdgePolicy where
  eventName : String
  triggerClasses : List String
  condition : String
  action : String
  cooldown : ℚ
deriving DecidableEq, Repr

/-- The match test (lines 52-56): condition "all" requires
targets ⊆ detected_set, otherwise condition "any" requires the two sets
not to be disjoint. -/
def policyMatch (p : EdgePolicy) (detected : Finset String) : Bool :=
  if p.condition = "all" ∧ p.triggerClasses.toFinset ⊆ detected then
    true
  else if p.condition = "any" ∧ (p.triggerClasses.toFinset ∩ detected).Nonempty then
    true
  else
    false

/-- list(targets.intersection(detected_set))[0] (line 64): the class the
crop_target action crops around, when the intersection is non-empty.
Python enumerates the intersection in unspecified set order; the model
picks the first trigger class present in the detected set, one
representative of the possible choices (none iff the intersection is
empty, which is what the claims depend on). -/
def chooseTarget (triggerClasses : List String) (detected : Finset String) :
    Option String :=
  (triggerClasses.filter (fun c => decide (c ∈ detected))).head?

/-- The crop window of the crop_target action (lines 66-68):
frame[max(0, y1-20):min(h, y2+20), max(0, x1-20):min(w, x2+20)]. -/
def yoloCrop (frameH frameW : ℕ) (b : Box) : Box :=
  ⟨max 0 (b.x1 - 20), max 0 (b.y1 - 20),
   min (frameW : ℤ) (b.x2 + 20), min (frameH : ℤ) (b.y2 + 20)⟩

/-- The image attached to a triggered event: frame.copy() for full_frame,
or the crop window for crop_target. -/
inductive CropImage where
  | fullFrame
  | cropped (b : Box)
deriving DecidableEq, Repr

/-- One element of the returned triggered_events list:
(event_name, image_to_send, detected_classes_str). -/
structure TrigEvent where
  name : String
  image : CropImage
  classes : String
deriving DecidableEq, Repr

/-- Result of one process_frame call: err is the uncaught exception, if
one was raised (the local triggered_events list is then lost, so events
is empty, but self.last_triggers keeps every update already made). -/
structure FrameOutcome where
  err : Option String
  events : List TrigEvent
  lastTriggers : String → ℚ

/-- The policy loop of SemanticEdgeEngine.process_frame (lines 40-72).
Per policy: skip while current_time - last_triggers.get(event_name, 0)
< cooldown; on a match record last_triggers[event_name] = current_time,
then either crop around the first matching target or append the full
frame.  With action crop_target and an empty intersection, indexing
list(...)[0] raises IndexError, which propagates out of process_frame
(no surrounding try); the model also keeps the shape of the boxes_dict
lookup, whose failure would be a KeyError (unreachable, proved below). -/
def processPolicies (dets : List Detection) (frameH frameW : ℕ) (t : ℚ)
    (events : List TrigEvent) (lt : String → ℚ) :
    List EdgePolicy → FrameOutcome
  | [] => ⟨none, events, lt⟩
  | p :: ps =>
      if t - lt p.eventName < p.cooldown then
        processPolicies dets frameH frameW t events lt ps
      else if policyMatch p (detectedSetOf dets) then
        let lt' := Function.update lt p.eventName t
        if p.action = "crop_target" then
          match chooseTarget p.triggerClasses (detectedSetOf dets) with
          | none => ⟨some "IndexError", [], lt'⟩
          | some c =>
              match boxesOf dets c with
              | [] => ⟨some "KeyError", [], lt'⟩
              | b :: _ =>
                  processPolicies dets frameH frameW t
                    (events ++ [⟨p.eventName, .cropped (yoloCrop frameH frameW b),
                                 detectedStr dets⟩])
                    lt' ps
        else
          processPolicies dets frameH frameW t
            (events ++ [⟨p.eventName, .fullFrame, detectedStr dets⟩]) lt' ps
      else
        processPolicies dets frameH frameW t events lt ps

/-- SemanticEdgeEngine.process_frame for one frame, given the shared
detection pass output.  (The early return for an empty policy list,
line 16, coincides with the empty fold.) -/
def processFrame (dets : List Detection) (frameH frameW : ℕ) (t : ℚ)
    (lt : String → ℚ) (policies : List EdgePolicy) : FrameOutcome :=
  processPolicies dets frameH frameW t [] lt policies

/-- Repeated process_frame calls over a frame sequence, threading
self.last_triggers; delivered events are those of non-raising calls. -/
def runFrames (policies : List EdgePolicy) (frameH frameW : ℕ)
    (lt : String → ℚ) : List (ℚ × List Detection) → List TrigEvent × (String → ℚ)
  | [] => ([], lt)
  | (t, dets) :: rest =>
      let out := processFrame dets frameH frameW t lt policies
      let next := runFrames policies frameH frameW out.lastTriggers rest
      (out.events ++ next.1, next.2)

/-! ## Motion engine (piside/edge_vision/motion_detector.py) -/

/-- Python int() truncates toward zero. -/
def pyInt (q : ℚ) : ℤ :=
  if q < 0 then ⌈q⌉ else ⌊q⌋

/-- One motion policy with the dict defaults of lines 39-41 applied:
trigger list, event_name, padding (default 0.0). -/
structure MotionPolicy where
  trigger : List String
  eventName : String
  padding : ℚ
deriving DecidableEq, Repr

/-- EdgeMotionDetector per-instance state: last_event_time and the
cooldown fixed at construction (lines 9-13). -/
structure MotionState where
  lastEventTime : ℚ
  cooldown : ℚ
deriving DecidableEq, Repr

/-- The padded, clamped crop window of lines 43-47:
x1 = max(0, int(x - w*pad)), y1 = max(0, int(y - h*pad)),
x2 = min(img_w, int(x + w*(1+pad))), y2 = min(img_h, int(y + h*(1+pad))). -/
def motionCrop (imgH imgW : ℕ) (x y w h : ℕ) (pad : ℚ) : Box :=
  ⟨max 0 (pyInt ((x : ℚ) - (w : ℚ) * pad)),
   max 0 (pyInt ((y : ℚ) - (h : ℚ) * pad)),
   min (imgW : ℤ) (pyInt ((x : ℚ) + (w : ℚ) * (1 + pad))),
   min (imgH : ℤ) (pyInt ((y : ℚ) + (h : ℚ) * (1 + pad)))⟩

/-- EdgeMotionDetector.process_frame, with the background-subtraction and
contour stage abstracted into the optional motion bounding box (x, y, w, h)
found above the area threshold (cv2.boundingRect output, lines 27-35).
Empty policies or an un-elapsed cooldown return (None, None) untouched;
otherwise the first policy whose trigger list contains
"Pixel_Motion_Active" fires with the padded clamped crop and
last_event_time is set to the current time. -/
def motionProcessFrame (st : MotionState) (t : ℚ)
    (motionBbox : Option (ℕ × ℕ × ℕ × ℕ)) (imgH imgW : ℕ)
    (policies : List MotionPolicy) : Option (String × Box) × MotionState :=
  if policies = [] then (none, st)
  else if t - st.lastEventTime < st.cooldown then (none, st)
  else
    match motionBbox with
    | none => (none, st)
    | some (x, y, w, h) =>
        match policies.find? (fun p => p.trigger.contains "Pixel_Motion_Active") with
        | none => (none, st)
        | some p =>
            (some (p.eventName, motionCrop imgH imgW x y w h p.padding),
             { st with lastEventTime := t })

/-- Repeated motion process_frame calls over (time, bbox) observations,
threading the detector state and collecting fired event names. -/
def runMotionFrames (imgH imgW : ℕ) (policies : List MotionPolicy)
    (st : MotionState) : List (ℚ × Option (ℕ × ℕ × ℕ × ℕ)) → List String × MotionState
  | [] => ([], st)
  | (t, bbox) :: rest =>
      let out := motionProcessFrame st t bbox imgH imgW policies
      let next := runMotionFrames imgH imgW policies out.2 rest
      match out.1 with
      | some (name, _) => (name :: next.1, next.2)
      | none => next

/-- Containment of a crop window in a frame of width ww and height hh:
the half-open pixel ranges [x1, x2) and [y1, y2) lie inside
[0, ww) and [0, hh). -/
def cropInBounds (hh ww : ℕ) (r : Box) : Prop :=
  0 ≤ r.x1 ∧ r.x2 ≤ (ww : ℤ) ∧ 0 ≤ r.y1 ∧ r.y2 ≤ (hh : ℤ)

/-! ## Helper lemmas -/

lemma mem_detectedSetOf {dets : List Detection} {c : String} :
    c ∈ detectedSetOf dets ↔ ∃ d ∈ dets, d.cls = c := by
  simp [detectedSetOf]

lemma boxesOf_ne_nil {dets : List Detection} {c : String}
    (hc : c ∈ detectedSetOf dets) : boxesOf dets c ≠ [] := by
  rcases mem_detectedSetOf.mp hc with ⟨d, hd, rfl⟩
  simp only [boxesOf, ne_eq, List.map_eq_nil_iff, List.filter_eq_nil_iff]
  intro h
  exact h d hd (by simp)

lemma chooseTarget_eq_none {tcs : List String} {D : Finset String} :
    chooseTarget tcs D = none ↔ ∀ c ∈ tcs, c ∉ D := by
  simp [chooseTarget, List.head?_eq_none_iff, List.filter_eq_nil_iff]

lemma chooseTarget_eq_some {tcs : List String} {D : Finset String} {c : String}
    (h : chooseTarget tcs D = some c) : c ∈ tcs ∧ c ∈ D := by
  unfold chooseTarget at h
  cases hf : tcs.filter (fun c => decide (c ∈ D)) with
  | nil => rw [hf] at h; simp at h
  | cons a l =>
      rw [hf] at h
      simp only [List.head?_cons, Option.some.injEq] at h
      have ha : a ∈ tcs.filter (fun c => decide (c ∈ D)) := by
        rw [hf]; exact List.mem_cons_self a l
      have hm := List.mem_filter.mp ha
      subst h
      simpa using hm

lemma policyMatch_eq_true_iff (p : EdgePolicy) (D : Finset String) :
    policyMatch p D = true ↔
      (p.condition = "all" ∧ p.triggerClasses.toFinset ⊆ D) ∨
      (p.condition = "any" ∧ (p.triggerClasses.toFinset ∩ D).Nonempty) := by
  unfold policyMatch
  split
  · next h1 => simp [h1]
  · split
    · next h1 h2 => simp [h1, h2]
    · next h1 h2 => simp [h1, h2]

lemma match_gives_target {p : EdgePolicy} {D : Finset String}
    (hm : policyMatch p D = true) (hne : p.triggerClasses ≠ []) :
    ∃ c ∈ p.triggerClasses, c ∈ D := by
  rcases (policyMatch_eq_true_iff p D).mp hm with ⟨_, hsub⟩ | ⟨_, hx⟩
  · cases htc : p.triggerClasses with
    | nil => exact absurd htc hne
    | cons a l =>
        refine ⟨a, by simp [htc], ?_⟩
        apply hsub
        simp [htc]
  · rcases hx with ⟨x, hx⟩
    rw [Finset.mem_inter] at hx
    exact ⟨x, List.mem_toFinset.mp hx.1, hx.2⟩

lemma chooseTarget_isSome_of_match {p : EdgePolicy} {D : Finset String}
    (hm : policyMatch p D = true) (hne : p.triggerClasses ≠ []) :
    ∃ c, chooseTarget p.triggerClasses D = some c := by
  rcases match_gives_target hm hne with ⟨c, hc1, hc2⟩
  cases h : chooseTarget p.triggerClasses D with
  | none => exact absurd hc2 (chooseTarget_eq_none.mp h c hc1)
  | some c' => exact ⟨c', rfl⟩

lemma yoloCrop_inBounds (hh ww : ℕ) (b : Box) :
    cropInBounds hh ww (yoloCrop hh ww b) :=
  ⟨le_max_left 0 _, min_le_left _ _, le_max_left 0 _, min_le_left _ _⟩

lemma motionCrop_inBounds (hh ww : ℕ) (x y w h : ℕ) (pad : ℚ) :
    cropInBounds hh ww (motionCrop hh ww x y w h pad) :=
  ⟨le_max_left 0 _, min_le_left _ _, le_max_left 0 _, min_le_left _ _⟩

/-! ## Claim C3 -/

/-- Claim C3, counterexample: "each node's allocated frame rate equals
F/N for every N ≥ 1" fails on the code: with 31 configured nodes the
allocation is floored at 1.0 by max(1.0, 30.0 / num_nodes), not 30/31. -/
theorem c3_counterexample :
    (mkManager ((List.range 31).map (fun i => toString i))).targetFps ≠
      30 / 31 := by
  have hlen : ((List.range 31).map (fun i => toString i)).length = 31 := by simp
  simp only [mkManager, hlen]
  unfold target_fps
  norm_num

/-- Claim C3 (amended): for N ≥ 1 configured nodes, the allocated rate is
max(1, 30/N) — equal to 30/N whenever N ≤ 30, and floored at 1 for
N > 30 — computed from the node count at construction; SET_FPS with that
value is the first command sent on connect, and with the two configured
nodes "1","2" its value is 15. -/
theorem c3_allocation (ids : List String) (wakeJson policyJson : String)
    (h1 : 1 ≤ ids.length) :
    (ids.length ≤ 30 → (mkManager ids).targetFps = 30 / (ids.length : ℚ)) ∧
    (30 < ids.length → (mkManager ids).targetFps = 1) ∧
    (onConnectCommands (mkManager ids) wakeJson policyJson).head? =
      some (Command.setFps (target_fps ids.length)) ∧
    (onConnectCommands (mkManager ["1", "2"]) wakeJson policyJson).head? =
      some (Command.setFps 15) := by
  have hpos : 0 < ids.length := h1
  have hq : (0 : ℚ) < (ids.length : ℚ) := by exact_mod_cast hpos
  refine ⟨?_, ?_, ?_, ?_⟩
  · intro h30
    have : (1 : ℚ) ≤ 30 / (ids.length : ℚ) := by
      rw [one_le_div hq]
      exact_mod_cast h30
    simp [mkManager, target_fps, hpos, max_eq_right this]
  · intro h30
    have : 30 / (ids.length : ℚ) ≤ 1 := by
      rw [div_le_one hq]
      exact_mod_cast h30.le
    simp [mkManager, target_fps, hpos, max_eq_left this]
  · simp [onConnectCommands, mkManager]
  · simp only [onConnectCommands, mkManager, List.head?_cons, Option.some.injEq,
      Command.setFps.injEq]
    norm_num [target_fps]

theorem c3_allocation_witness :
    (mkManager ["1", "2"]).targetFps = 30 / (((["1", "2"] : List String).length : ℕ) : ℚ) :=
  (c3_allocation ["1", "2"] "" "" (by decide)).1 (by decide)

/-! ## Claim C5 -/

/-- Claim C5: in every status trace generated by the handler loop's
writes, Offline is never directly followed by Online; reconnection always
passes through Connecting first. -/
theorem c5_no_offline_to_online (tr : List NodeStatus) (h : ValidStatusTrace tr)
    (i : ℕ) (hi : tr.get? i = some NodeStatus.offline) :
    tr.get? (i + 1) ≠ some NodeStatus.online := by
  intro hnext
  have hl2 : i + 1 < tr.length := (List.get?_eq_some.mp hnext).1
  have hlt : i < tr.length - 1 := by omega
  have hstep := List.chain'_iff_get.mp h i hlt
  have e1 : tr.get ⟨i, by omega⟩ = NodeStatus.offline := by
    have e := List.get?_eq_get (l := tr) (n := i) (by omega)
    rw [e] at hi
    exact Option.some.inj hi
  have e2 : tr.get ⟨i + 1, by omega⟩ = NodeStatus.online := by
    have e := List.get?_eq_get (l := tr) (n := i + 1) hl2
    rw [e] at hnext
    exact Option.some.inj hnext
  rw [e1, e2] at hstep
  cases hstep

theorem c5_witness :
    ([NodeStatus.offline, NodeStatus.connecting, NodeStatus.online] :
        List NodeStatus).get? 1 ≠ some NodeStatus.online :=
  c5_no_offline_to_online _
    (List.chain'_cons.mpr ⟨StatusStep.retry,
      List.chain'_cons.mpr ⟨StatusStep.handshake, List.chain'_singleton _⟩⟩)
    0 rfl

/-! ## Claim C8 -/

lemma processPolicies_crops (dets : List Detection) (hh ww : ℕ) (t : ℚ) :
    ∀ (ps : List EdgePolicy) (events : List TrigEvent) (lt : String → ℚ),
      (∀ ev ∈ events, ∀ r, ev.image = CropImage.cropped r → cropInBounds hh ww r) →
      ∀ ev ∈ (processPolicies dets hh ww t events lt ps).events,
        ∀ r, ev.image = CropImage.cropped r → cropInBounds hh ww r := by
  intro ps
  induction ps with
  | nil =>
      intro events lt hinv
      simpa [processPolicies] using hinv
  | cons p ps ih =>
      intro events lt hinv
      simp only [processPolicies]
      split
      · exact ih events lt hinv
      · split
        · split
          · split
            · simp
            · split
              · simp
              · apply ih
                intro ev hev r hr
                rcases List.mem_append.mp hev with hmem | hmem
                · exact hinv ev hmem r hr
                · rcases List.mem_singleton.mp hmem with rfl
                  simp only [CropImage.cropped.injEq] at hr
                  rw [← hr]
                  exact yoloCrop_inBounds hh ww _
          · apply ih
            intro ev hev r hr
            rcases List.mem_append.mp hev with hmem | hmem
            · exact hinv ev hmem r hr
            · rcases List.mem_singleton.mp hmem with rfl
              simp at hr
        · exact ih events lt hinv

/-- Claim C8: every crop attached to a triggered event of the semantic
engine, and every crop emitted by the motion engine, lies within the
source frame: its window indices are clamped to [0, width] x [0, height],
also when the padded box sticks out past a frame edge. -/
theorem c8_crops_contained (hh ww : ℕ) :
    (∀ (dets : List Detection) (t : ℚ) (lt : String → ℚ)
       (policies : List EdgePolicy) (ev : TrigEvent),
       ev ∈ (processFrame dets hh ww t lt policies).events →
       ∀ r, ev.image = CropImage.cropped r → cropInBounds hh ww r) ∧
    (∀ (st : MotionState) (t : ℚ) (bbox : Option (ℕ × ℕ × ℕ × ℕ))
       (policies : List MotionPolicy) (name : String) (r : Box),
       (motionProcessFrame st t bbox hh ww policies).1 = some (name, r) →
       cropInBounds hh ww r) := by
  constructor
  · intro dets t lt policies ev hev r hr
    exact processPolicies_crops dets hh ww t policies [] lt (by simp) ev hev r hr
  · intro st t bbox policies name r hfire
    unfold motionProcessFrame at hfire
    split at hfire
    · simp at hfire
    · split at hfire
      · simp at hfire
      · split at hfire
        · simp at hfire
        · split at hfire
          · simp at hfire
          · simp only [Prod.mk.injEq, Option.some.injEq] at hfire
            rw [← hfire.2]
            exact motionCrop_inBounds hh ww _ _ _ _ _

theorem c8_witness :
    cropInBounds 480 640 (Box.mk 0 0 100 100) :=
  (c8_crops_contained 480 640).2 ⟨0, 15⟩ 100 (some (0, 0, 100, 100))
    [⟨["Pixel_Motion_Active"], "Motion", 0⟩] "Motion" ⟨0, 0, 100, 100⟩
    (by
      have hcool : ¬ ((100 : ℚ) - 0 < 15) := by norm_num
      simp [motionProcessFrame, hcool, motionCrop, pyInt]
      norm_num)

/-! ## Claim C1 -/

/-- Claim C1: a text message whose verb head is none of the recognized
ones is ignored: the channel state (frame buffer and status) is
unchanged, nothing is sent back, the loop goes on to process the rest of
the connection's messages, and an Online node stays Online. -/
theorem c1_unknown_verb_ignored {B F : Type} (decode : B → Option F)
    (handleEvent : String → List String) (st : RecvState F) (s : String)
    (rest : List (WsMsg B))
    (hv : pyStartsWith s "PI_VOICE_COMMAND:" = false)
    (he : pyStartsWith s "PI_EXPERT_EVENT:" = false)
    (hy : pyStartsWith s "PI_YOLO_EVENT:" = false) :
    recvStep decode handleEvent st (WsMsg.text s) = (st, []) ∧
    runRecv decode handleEvent st (WsMsg.text s :: rest) =
      runRecv decode handleEvent st rest ∧
    (st.status = NodeStatus.online →
      (recvStep decode handleEvent st (WsMsg.text s)).1.status =
        NodeStatus.online) := by
  have hstep : recvStep decode handleEvent st (WsMsg.text s) = (st, []) := by
    simp [recvStep, hv, he, hy]
  refine ⟨hstep, ?_, ?_⟩
  · simp [runRecv, hstep]
  · intro hon
    rw [hstep]
    exact hon

theorem c1_witness :
    recvStep (fun _ : Unit => (none : Option Unit)) (fun _ => [])
      ⟨none, NodeStatus.online⟩ (WsMsg.text "UNKNOWN_VERB:hello") =
      (⟨none, NodeStatus.online⟩, []) :=
  (c1_unknown_verb_ignored (fun _ : Unit => (none : Option Unit)) (fun _ => [])
    ⟨none, NodeStatus.online⟩ "UNKNOWN_VERB:hello" []
    (by decide) (by decide) (by decide)).1

/-! ## Claim C7 -/

/-- Claim C7: route_and_analyze keeps the non-empty advisories of the
matching experts in registration order; when the matching experts return
"", "B-warning", "" the aggregate is exactly "B-warning"; when every
matching expert returns "" (in particular when nothing matches) the
aggregate is "" and no advisory is sent downstream. -/
theorem c7_aggregation :
    (∀ (F C : Type) (experts : List (Expert F C)) (ev : String) (f : F) (c : C),
       (∀ e ∈ experts, e.matchEvent ev = true → e.analyze f c = Except.ok "") →
       routeAndAnalyze experts ev f c = "" ∧
       sendsAdvisory (routeAndAnalyze experts ev f c) = false) ∧
    routeAndAnalyze
      [⟨"H1", fun _ => true, fun _ _ => Except.ok ""⟩,
       ⟨"H2", fun _ => true, fun _ _ => Except.ok "B-warning"⟩,
       ⟨"H3", fun _ => true, fun _ _ => Except.ok ""⟩]
      "ev" () () = "B-warning" := by
  constructor
  · intro F C experts ev f c hall
    have hfold : ∀ acc, experts.foldl (fun acc e =>
        if e.matchEvent ev then
          match e.analyze f c with
          | .ok res => if res = "" then acc else acc ++ [res]
          | .error _ => acc
        else acc) acc = acc := by
      induction experts with
      | nil => intro acc; rfl
      | cons e es ih =>
          intro acc
          have he := fun hm => hall e (List.mem_cons_self e es) hm
          have ihs := fun e' he' => hall e' (List.mem_cons_of_mem e he')
          simp only [List.foldl_cons]
          rcases hmatch : e.matchEvent ev with _ | _
          · simpa [hmatch] using ih ihs acc
          · rw [he hmatch]
            simpa [hmatch] using ih ihs acc
    constructor
    · simp [routeAndAnalyze, hfold]
    · simp [routeAndAnalyze, hfold, sendsAdvisory]
  · rfl

theorem c7_witness :
    routeAndAnalyze
      [⟨"H", fun _ => false, fun _ _ => Except.ok "x"⟩]
      "ev" () () = "" :=
  (c7_aggregation.1 Unit Unit
    [⟨"H", fun _ => false, fun _ _ => Except.ok "x"⟩]
    "ev" () () (by simp)).1

/-! ## Claim C2 -/

/-- Claim C2 as stated fails on the code in two places, both shown at the
key "K" stored with count = 1 and lastAlert = 0: an occurrence at
now = 10, inside the 30-second window, emits nothing but leaves count at
1 instead of incrementing it (the suppressed branch performs no update);
and an occurrence at now = 30, where now - lastAlert equals the window
exactly, is still suppressed because the escalation test is strict >,
while the claim's ≥ would escalate. -/
theorem c2_counterexample :
    (violationStep (Function.update (fun _ => none) "K"
      (some ⟨0, 0, 1⟩)) "K" 10).1 = "" ∧
    (violationStep (Function.update (fun _ => none) "K"
      (some ⟨0, 0, 1⟩)) "K" 10).2 "K" = some ⟨0, 0, 1⟩ ∧
    (violationStep (Function.update (fun _ => none) "K"
      (some ⟨0, 0, 1⟩)) "K" 30).1 = "" := by
  have h10 : ¬ ((30 : ℚ) < 10) := by norm_num
  have h30 : ¬ ((30 : ℚ) < 30) := by norm_num
  refine ⟨?_, ?_, ?_⟩ <;>
    simp [violationStep, Function.update, h10, h30]

/-- Claim C2 (amended): per event-description key, a first occurrence
(count = 0, in particular an unseen key) emits the first alert and stores
lastAlert = now, count = 1; an occurrence while now - lastAlert ≤ 30 (the
escalation window) emits nothing and leaves the stored state unchanged
(count is NOT incremented); an occurrence while now - lastAlert > 30
(strictly) emits the escalated-wording alert, sets lastAlert = now and
increments count. -/
theorem c2_tracker_machine (states : String → Option ViolationState)
    (desc : String) (now : ℚ) :
    (((states desc).getD ⟨now, 0, 0⟩).count = 0 →
      (violationStep states desc now).1 = firstAlertText desc ∧
      (violationStep states desc now).2 desc =
        some ⟨((states desc).getD ⟨now, 0, 0⟩).firstSeen, now, 1⟩) ∧
    (∀ s, states desc = some s → s.count ≠ 0 → 30 < now - s.lastAlert →
      (violationStep states desc now).1 = escalatedAlertText desc ∧
      (violationStep states desc now).2 desc =
        some ⟨s.firstSeen, now, s.count + 1⟩) ∧
    (∀ s, states desc = some s → s.count ≠ 0 → now - s.lastAlert ≤ 30 →
      (violationStep states desc now).1 = "" ∧
      (violationStep states desc now).2 desc = some s) := by
  refine ⟨?_, ?_, ?_⟩
  · intro h0
    constructor
    · simp [violationStep, h0]
    · simp [violationStep, h0, Function.update]
  · intro s hs hc hlt
    constructor
    · simp [violationStep, hs, hc, hlt]
    · simp [violationStep, hs, hc, hlt, Function.update]
  · intro s hs hc hle
    have hno : ¬ (30 < now - s.lastAlert) := not_lt.mpr hle
    constructor
    · simp [violationStep, hs, hc, hno]
    · simp [violationStep, hs, hc, hno, Function.update]

theorem c2_tracker_witness :
    (violationStep (fun _ => none) "K" 5).1 = firstAlertText "K" ∧
    (violationStep (fun _ => none) "K" 5).2 "K" = some ⟨5, 5, 1⟩ :=
  (c2_tracker_machine (fun _ => none) "K" 5).1 rfl

/-! ## Claim C10 -/

lemma recvStep_text_fst {B F : Type} (decode : B → Option F)
    (handleEvent : String → List String) (st : RecvState F) (s : String) :
    (recvStep decode handleEvent st (WsMsg.text s)).1 = st := by
  simp only [recvStep]
  split
  · rfl
  · split <;> rfl

/-- Claim C10: the stored preview frame for a node is replaced only by a
binary message whose payload decodes to a frame; a payload that fails to
decode changes nothing; over any message sequence the buffer ends up
holding the last successfully decoded frame, or its initial value (None
at startup) when no binary payload decoded. -/
theorem c10_frame_buffer {B F : Type} (decode : B → Option F)
    (handleEvent : String → List String) (st : RecvState F)
    (msgs : List (WsMsg B)) :
    (∀ b, decode b = none →
      recvStep decode handleEvent st (WsMsg.binary b) = (st, [])) ∧
    (runRecv decode handleEvent st msgs).1.frameBuffer =
      ((decodedFrames decode msgs).getLast?).elim st.frameBuffer some := by
  constructor
  · intro b hb
    simp [recvStep, hb]
  · induction msgs generalizing st with
    | nil => rfl
    | cons m rest ih =>
        cases m with
        | text s =>
            have h1 := recvStep_text_fst decode handleEvent st s
            simp only [runRecv, decodedFrames, h1]
            exact ih st
        | binary b =>
            cases hdec : decode b with
            | none =>
                simp only [runRecv, recvStep, hdec, decodedFrames]
                exact ih st
            | some f =>
                simp only [runRecv, recvStep, hdec, decodedFrames]
                rw [ih { st with frameBuffer := some f }]
                cases hD : decodedFrames decode rest with
                | nil => simp
                | cons x l =>
                    rw [List.getLast?_cons_cons]
                    obtain ⟨y, hy⟩ := Option.isSome_iff_exists.mp
                      (List.getLast?_isSome.mpr (List.cons_ne_nil x l))
                    rw [hy]
                    rfl

theorem c10_witness :
    recvStep (fun _ : Unit => (none : Option Unit)) (fun _ => [])
      ⟨none, NodeStatus.online⟩ (WsMsg.binary ()) =
      (⟨none, NodeStatus.online⟩, []) :=
  (c10_frame_buffer (fun _ : Unit => (none : Option Unit)) (fun _ => [])
    ⟨none, NodeStatus.online⟩ []).1 () rfl

/-! ## Claim C4 -/

lemma processPolicies_blocked (dets : List Detection) (hh ww : ℕ) (t : ℚ)
    (E : String) (C t0 : ℚ) (hts : t - t0 < C) :
    ∀ (ps : List EdgePolicy) (events : List TrigEvent) (lt : String → ℚ),
      (∀ q ∈ ps, q.eventName = E → q.cooldown = C) →
      lt E = t0 →
      E ∉ events.map TrigEvent.name →
      E ∉ (processPolicies dets hh ww t events lt ps).events.map TrigEvent.name ∧
      (processPolicies dets hh ww t events lt ps).lastTriggers E = t0 := by
  intro ps
  induction ps with
  | nil =>
      intro events lt _ hlt hev
      exact ⟨hev, hlt⟩
  | cons p ps ih =>
      intro events lt hC hlt hev
      have hCs : ∀ q ∈ ps, q.eventName = E → q.cooldown = C :=
        fun q hq => hC q (List.mem_cons_of_mem p hq)
      by_cases hcool : t - lt p.eventName < p.cooldown
      · simp only [processPolicies, if_pos hcool]
        exact ih events lt hCs hlt hev
      · have hname : p.eventName ≠ E := by
          intro hname
          exact hcool (by
            rw [hname, hlt, hC p (List.mem_cons_self p ps) hname]
            exact hts)
        have hupd : (Function.update lt p.eventName t) E = t0 := by
          rw [Function.update_noteq (Ne.symm hname)]
          exact hlt
        have hplus : ∀ img cls,
            E ∉ (events ++ [(⟨p.eventName, img, cls⟩ : TrigEvent)]).map TrigEvent.name := by
          intro img cls hmem
          rw [List.map_append] at hmem
          rcases List.mem_append.mp hmem with h | h
          · exact hev h
          · rw [List.map_cons, List.map_nil, List.mem_singleton] at h
            exact hname h.symm
        simp only [processPolicies, if_neg hcool]
        by_cases hmatch : policyMatch p (detectedSetOf dets) = true
        · rw [if_pos hmatch]
          by_cases hact : p.action = "crop_target"
          · rw [if_pos hact]
            cases hct : chooseTarget p.triggerClasses (detectedSetOf dets) with
            | none =>
                simp only [hct]
                exact ⟨by simp, hupd⟩
            | some c =>
                simp only [hct]
                cases hbx : boxesOf dets c with
                | nil =>
                    simp only [hbx]
                    exact ⟨by simp, hupd⟩
                | cons b bs =>
                    simp only [hbx]
                    exact ih _ _ hCs hupd (hplus _ _)
          · rw [if_neg hact]
            exact ih _ _ hCs hupd (hplus _ _)
        · rw [if_neg hmatch]
          exact ih events lt hCs hlt hev

/-- Claim C4: once an event name has fired at time t0 (recorded in the
engines' last-trigger state), no event with that name fires again on any
frame strictly before t0 + C, however many frames with whatever
detections arrive in between.  For the semantic engine C is the cooldown
of the policies carrying that event name; for the motion detector C is
the per-detector cooldown, which gates every firing. -/
theorem c4_cooldown (E : String) (C t0 : ℚ) :
    (∀ (policies : List EdgePolicy) (hh ww : ℕ) (lt : String → ℚ)
       (frames : List (ℚ × List Detection)),
       (∀ q ∈ policies, q.eventName = E → q.cooldown = C) →
       lt E = t0 →
       (∀ f ∈ frames, f.1 - t0 < C) →
       E ∉ (runFrames policies hh ww lt frames).1.map TrigEvent.name) ∧
    (∀ (hh ww : ℕ) (policies : List MotionPolicy) (st : MotionState)
       (frames : List (ℚ × Option (ℕ × ℕ × ℕ × ℕ))),
       st.lastEventTime = t0 → st.cooldown = C →
       (∀ f ∈ frames, f.1 - t0 < C) →
       (runMotionFrames hh ww policies st frames).1 = []) := by
  constructor
  · intro policies hh ww lt frames hC
    induction frames generalizing lt with
    | nil =>
        intro _ _
        simp [runFrames]
    | cons fr rest ih =>
        intro hlt hfr
        obtain ⟨t, dets⟩ := fr
        have hts : t - t0 < C := hfr (t, dets) (List.mem_cons_self _ _)
        have hblock := processPolicies_blocked dets hh ww t E C t0 hts policies
          [] lt hC hlt (by simp)
        simp only [runFrames, List.map_append, List.mem_append, not_or]
        refine ⟨hblock.1, ?_⟩
        exact ih _ hblock.2 (fun f hf => hfr f (List.mem_cons_of_mem _ hf))
  · intro hh ww policies st frames
    induction frames generalizing st with
    | nil =>
        intro _ _ _
        rfl
    | cons fr rest ih =>
        intro h1 h2 hfr
        obtain ⟨t, bbox⟩ := fr
        have hcool : t - st.lastEventTime < st.cooldown := by
          rw [h1, h2]
          exact hfr (t, bbox) (List.mem_cons_self _ _)
        have hstep : motionProcessFrame st t bbox hh ww policies = (none, st) := by
          unfold motionProcessFrame
          split
          · rfl
          · simp [hcool]
        simp only [runMotionFrames, hstep]
        exact ih st h1 h2 (fun f hf => hfr f (List.mem_cons_of_mem _ hf))

theorem c4_witness :
    "Phone" ∉ (runFrames [⟨"Phone", ["cell phone"], "any", "full_frame", 10⟩]
        480 640 (Function.update (fun _ => 0) "Phone" 100)
        [(105, [⟨"cell phone", ⟨1, 1, 2, 2⟩⟩])]).1.map TrigEvent.name ∧
    (runMotionFrames 480 640 [⟨["Pixel_Motion_Active"], "Motion", 0⟩]
        ⟨100, 15⟩ [(110, some (0, 0, 200, 200))]).1 = [] :=
  ⟨(c4_cooldown "Phone" 10 100).1 _ 480 640 _ _
      (by
        intro q hq
        rw [List.mem_singleton] at hq
        subst hq
        intro
        rfl)
      (by simp [Function.update])
      (by
        intro f hf
        rw [List.mem_singleton] at hf
        subst hf
        norm_num),
   (c4_cooldown "Motion" 15 100).2 480 640 _ ⟨100, 15⟩ _ rfl rfl
      (by
        intro f hf
        rw [List.mem_singleton] at hf
        subst hf
        norm_num)⟩

/-! ## Claim C6 -/

lemma single_policy_fires_iff (p : EdgePolicy) (dets : List Detection)
    (hh ww : ℕ) (t : ℚ) (lt : String → ℚ)
    (hcd : ¬ (t - lt p.eventName < p.cooldown))
    (hne : p.triggerClasses ≠ []) :
    p.eventName ∈ (processFrame dets hh ww t lt [p]).events.map TrigEvent.name ↔
      policyMatch p (detectedSetOf dets) = true := by
  unfold processFrame
  simp only [processPolicies, if_neg hcd]
  cases hm : policyMatch p (detectedSetOf dets) with
  | false =>
      simp [processPolicies]
  | true =>
      rw [if_pos rfl]
      by_cases hact : p.action = "crop_target"
      · rw [if_pos hact]
        obtain ⟨c, hc⟩ := chooseTarget_isSome_of_match hm hne
        simp only [hc]
        have hbne := boxesOf_ne_nil (chooseTarget_eq_some hc).2
        cases hbx : boxesOf dets c with
        | nil => exact absurd hbx hbne
        | cons b bs =>
            simp only [hbx]
            simp [processPolicies]
      · rw [if_neg hact]
        simp [processPolicies]

/-- Claim C6: for a single classifier policy whose cooldown has elapsed
at the current frame, condition "all" with required classes [A, B] fires
exactly when both A and B are in the frame's detected-class set;
condition "any" fires exactly when the detected set meets {A, B}
non-emptily. -/
theorem c6_match_semantics (p : EdgePolicy) (A B : String)
    (dets : List Detection) (hh ww : ℕ) (t : ℚ) (lt : String → ℚ)
    (htc : p.triggerClasses = [A, B])
    (hcd : p.cooldown ≤ t - lt p.eventName) :
    (p.condition = "all" →
      (p.eventName ∈ (processFrame dets hh ww t lt [p]).events.map TrigEvent.name ↔
        A ∈ detectedSetOf dets ∧ B ∈ detectedSetOf dets)) ∧
    (p.condition = "any" →
      (p.eventName ∈ (processFrame dets hh ww t lt [p]).events.map TrigEvent.name ↔
        (({A, B} : Finset String) ∩ detectedSetOf dets).Nonempty)) := by
  have hcd' : ¬ (t - lt p.eventName < p.cooldown) := not_lt.mpr hcd
  have hne : p.triggerClasses ≠ [] := by rw [htc]; simp
  have hbase := single_policy_fires_iff p dets hh ww t lt hcd' hne
  constructor
  · intro hall
    rw [hbase, policyMatch_eq_true_iff, htc, hall]
    simp [Finset.insert_subset_iff]
  · intro hany
    rw [hbase, policyMatch_eq_true_iff, htc, hany]
    simp

theorem c6_witness :
    "ev" ∈ (processFrame [⟨"a", ⟨0, 0, 1, 1⟩⟩, ⟨"b", ⟨0, 0, 1, 1⟩⟩] 480 640 5
        (fun _ => 0) [⟨"ev", ["a", "b"], "all", "full_frame", 5⟩]).events.map
        TrigEvent.name :=
  ((c6_match_semantics ⟨"ev", ["a", "b"], "all", "full_frame", 5⟩ "a" "b"
      [⟨"a", ⟨0, 0, 1, 1⟩⟩, ⟨"b", ⟨0, 0, 1, 1⟩⟩] 480 640 5 (fun _ => 0)
      rfl (by norm_num)).1 rfl).mpr
    (by constructor <;> decide)

/-! ## Claim C9 -/

lemma processPolicies_ok (dets : List Detection) (hh ww : ℕ) (t : ℚ) :
    ∀ (ps : List EdgePolicy) (events : List TrigEvent) (lt : String → ℚ),
      (∀ p ∈ ps, p.triggerClasses ≠ []) →
      (processPolicies dets hh ww t events lt ps).err = none := by
  intro ps
  induction ps with
  | nil =>
      intro events lt _
      rfl
  | cons p ps ih =>
      intro events lt h
      have hp : p.triggerClasses ≠ [] := h p (List.mem_cons_self p ps)
      have hs : ∀ q ∈ ps, q.triggerClasses ≠ [] :=
        fun q hq => h q (List.mem_cons_of_mem p hq)
      simp only [processPolicies]
      split
      · exact ih events lt hs
      · by_cases hm : policyMatch p (detectedSetOf dets) = true
        · rw [if_pos hm]
          by_cases hact : p.action = "crop_target"
          · rw [if_pos hact]
            obtain ⟨c, hc⟩ := chooseTarget_isSome_of_match hm hp
            simp only [hc]
            have hbne := boxesOf_ne_nil (chooseTarget_eq_some hc).2
            cases hbx : boxesOf dets c with
            | nil => exact absurd hbx hbne
            | cons b bs =>
                simp only [hbx]
                exact ih _ _ hs
          · rw [if_neg hact]
            exact ih _ _ hs
        · rw [if_neg hm]
          exact ih events lt hs

/-- Claim C9: the crop_target lookup cannot fail for policies whose
required-class set is non-empty: with every policy's trigger_classes
non-empty, process_frame raises nothing.  But a policy with condition
"all", an empty required-class set and action "crop_target" matches
every detected set (the empty set is a subset of anything), and once its
cooldown is elapsed process_frame raises IndexError when indexing the
empty intersection. -/
theorem c9_crop_target (E : String) (C : ℚ) :
    (∀ (policies : List EdgePolicy) (dets : List Detection) (hh ww : ℕ)
       (t : ℚ) (lt : String → ℚ),
       (∀ p ∈ policies, p.triggerClasses ≠ []) →
       (processFrame dets hh ww t lt policies).err = none) ∧
    (∀ D : Finset String,
       policyMatch ⟨E, [], "all", "crop_target", C⟩ D = true) ∧
    (∀ (dets : List Detection) (hh ww : ℕ) (t : ℚ) (lt : String → ℚ),
       ¬ (t - lt E < C) →
       (processFrame dets hh ww t lt
         [⟨E, [], "all", "crop_target", C⟩]).err = some "IndexError") := by
  refine ⟨?_, ?_, ?_⟩
  · intro policies dets hh ww t lt h
    exact processPolicies_ok dets hh ww t policies [] lt h
  · intro D
    simp [policyMatch]
  · intro dets hh ww t lt hcd
    have hm : policyMatch ⟨E, [], "all", "crop_target", C⟩
        (detectedSetOf dets) = true := by
      simp [policyMatch]
    simp only [processFrame, processPolicies, if_neg hcd, hm]
    rfl

theorem c9_witness :
    (processFrame [] 480 640 5 (fun _ => 0)
        [⟨"E", [], "all", "crop_target", 5⟩]).err = some "IndexError" ∧
    (processFrame [] 480 640 5 (fun _ => 0)
        [⟨"ok", ["person"], "any", "full_frame", 5⟩]).err = none :=
  ⟨(c9_crop_target "E" 5).2.2 [] 480 640 5 (fun _ => 0) (by norm_num),
   (c9_crop_target "ok" 5).1 [⟨"ok", ["person"], "any", "full_frame", 5⟩]
      [] 480 640 5 (fun _ => 0)
      (by
        intro p hp
        rw [List.mem_singleton] at hp
        subst hp
        simp)⟩

end LabDetector
